import Mathlib

/-!
Verification of the inverter supervision program: the VE.Direct HEX
register codec (`src/devices/phoenix.py`, classes `VEDirectRequest` /
`VEDirectResponse`), the ASCII telemetry frame assembler
(`PhoenixInverter.read_telemetry_frame`), and the arbitration loop
(`src/current_limit_watcher.py`).

Bytes are modelled as `Nat` (values kept below 256 by the operations
that produce them), byte strings as `List Nat`, and the floating point
quantities of the watcher (current limit, state of charge, RPM) as `ℚ`:
every comparison the watcher performs on them is an exact comparison of
values that round-trip exactly, so the rational model is faithful.
-/

/-- Command kinds of the VE.Direct HEX protocol that carry a numeric
code (`class VEDirectCommand`).  The source also has `ASYNC = "A"`,
whose value is a string and therefore has no single-byte encoding; it
is excluded here exactly as the claims exclude it. -/
inductive VEDirectCommand where
  | ENTER_BOOT
  | PING
  | APP_VERSION
  | PRODUCT_ID
  | RESTART
  | GET
  | SET
  deriving DecidableEq, Repr

/-- Numeric code of each command (the enum value in the source). -/
def VEDirectCommand.code : VEDirectCommand → Nat
  | .ENTER_BOOT => 0
  | .PING => 1
  | .APP_VERSION => 3
  | .PRODUCT_ID => 4
  | .RESTART => 6
  | .GET => 7
  | .SET => 8

/-- Inverse lookup used by `VEDirectCommand(cmd)` in `from_bytes`:
yields `none` when the byte matches no numeric command code (the
Python enum constructor raises `ValueError` there). -/
def VEDirectCommand.ofCode : Nat → Option VEDirectCommand
  | 0 => some .ENTER_BOOT
  | 1 => some .PING
  | 3 => some .APP_VERSION
  | 4 => some .PRODUCT_ID
  | 6 => some .RESTART
  | 7 => some .GET
  | 8 => some .SET
  | _ => none

/-- Response status flags (`class VEDirectFlag`). -/
inductive VEDirectFlag where
  | OK
  | NOT_FOUND
  | READ_ONLY
  | PARAMETER_ERROR
  | UNKNOWN
  deriving DecidableEq, Repr

/-- Numeric code of each flag. -/
def VEDirectFlag.code : VEDirectFlag → Nat
  | .OK => 0
  | .NOT_FOUND => 1
  | .READ_ONLY => 2
  | .PARAMETER_ERROR => 3
  | .UNKNOWN => 4

/-- Inverse lookup used by `VEDirectFlag(flag)` in `from_bytes`. -/
def VEDirectFlag.ofCode : Nat → Option VEDirectFlag
  | 0 => some .OK
  | 1 => some .NOT_FOUND
  | 2 => some .READ_ONLY
  | 3 => some .PARAMETER_ERROR
  | 4 => some .UNKNOWN
  | _ => none

/-- A request frame (`@dataclass VEDirectRequest`).  The source stores
the register as a hexadecimal string and parses it with
`int(self.register, 16)`; the numeric value is what reaches the wire,
so the register is modelled directly as that number. -/
structure VEDirectRequest where
  cmd : VEDirectCommand
  register : Nat
  flag : VEDirectFlag
  value : Option Nat := none
  deriving DecidableEq, Repr

/-- Fuelled worker for `intToMinBytes` (structural recursion on the
fuel, so the kernel can evaluate it). -/
def intToMinBytesFuel : Nat → Nat → List Nat
  | _, 0 => []
  | 0, _ + 1 => []
  | fuel + 1, i + 1 => (i + 1) % 256 :: intToMinBytesFuel fuel ((i + 1) / 256)

/-- Minimal little-endian byte encoding of a nonnegative integer:
`i.to_bytes(math.ceil(i.bit_length() / 8), byteorder="little")` from
`VEDirectRequest._int_to_min_bytes`.  Zero has bit length zero and
encodes to the empty byte string; a positive integer encodes to its
base-256 digits, least significant first, with no trailing zero
padding.  The recursion is fuelled with `i` itself so that the
function reduces in the kernel; `intToMinBytes_eq` below is the
defining equation. -/
def intToMinBytes (i : Nat) : List Nat :=
  intToMinBytesFuel i i

/-- The request checksum byte, `VEDirectRequest._checksum`:
`(85 - sum(p0)) & 0xFF`.  Python bitwise-and of a possibly negative
integer with `0xFF` equals the nonnegative remainder modulo 256. -/
def VEDirectRequest.checksum (p0 : List Nat) : Nat :=
  (((85 : ℤ) - (p0.sum : ℤ)) % 256).toNat

/-- `VEDirectRequest.to_bytes`: command byte, register as two
little-endian bytes, flag byte, minimal little-endian value bytes
(empty if no value), then the checksum byte.  The source encodes the
register with `to_bytes(2, "little")`, which raises for registers of
16 bits or more; theorems therefore carry `register < 65536`. -/
def VEDirectRequest.to_bytes (r : VEDirectRequest) : List Nat :=
  let register_bytes := [r.register % 256, r.register / 256]
  let value_bytes := match r.value with
    | some v => intToMinBytes v
    | none => []
  let request_bytes := r.cmd.code :: register_bytes ++ r.flag.code :: value_bytes
  request_bytes ++ [VEDirectRequest.checksum request_bytes]

/-- A response frame (`@dataclass VEDirectResponse`), register again
modelled numerically (the source renders it back to the canonical hex
string with `f"0x{register:04X}"`). -/
structure VEDirectResponse where
  cmd : VEDirectCommand
  register : Nat
  flag : VEDirectFlag
  value : Option Nat := none
  deriving DecidableEq, Repr

/-- The response checksum test, `VEDirectResponse._checksum`:
`(85 - sum(p0)) & 0xFF == 0`. -/
def VEDirectResponse.checksum (p0 : List Nat) : Bool :=
  (((85 : ℤ) - (p0.sum : ℤ)) % 256) == 0

/-- Little-endian unsigned decode of a byte string, as performed by
`struct.unpack` with formats `B`, `<H`, `<L`, `<Q`. -/
def leNat (bs : List Nat) : Nat :=
  bs.foldr (fun b acc => b + 256 * acc) 0

/-- The distinct failure modes of `VEDirectResponse.from_bytes`:
frames too short for the fixed header (`struct.error` / `IndexError`),
checksum failure (`ValueError("Checksum failed ...")`), and unknown
command or flag codes (`ValueError` from the enum constructors). -/
inductive DecodeError where
  | truncated
  | checksumFailed
  | badCommand
  | badFlag
  deriving DecidableEq, Repr

/-- `VEDirectResponse.from_bytes`: reads the command byte, the 16-bit
little-endian register, the flag byte; the value region is everything
between the flag and the final checksum byte (`p0[4:-1]`) and decodes
as a little-endian unsigned integer only when its width is 1, 2, 4 or
8 bytes, any other width leaving the value unset; then the checksum of
the whole frame is verified (before the enum conversions, matching the
order of the raises in the source). -/
def VEDirectResponse.from_bytes (p0 : List Nat) : Except DecodeError VEDirectResponse :=
  match p0 with
  | c :: r0 :: r1 :: f :: rest =>
    let register := r0 + 256 * r1
    let vb := rest.dropLast
    let value : Option Nat :=
      if vb.length = 1 ∨ vb.length = 2 ∨ vb.length = 4 ∨ vb.length = 8 then
        some (leNat vb)
      else
        none
    if VEDirectResponse.checksum p0 then
      match VEDirectCommand.ofCode c, VEDirectFlag.ofCode f with
      | some cmd, some flag => .ok ⟨cmd, register, flag, value⟩
      | none, _ => .error .badCommand
      | some _, none => .error .badFlag
    else
      .error .checksumFailed
  | _ => .error .truncated

instance {ε α : Type} [DecidableEq ε] [DecidableEq α] : DecidableEq (Except ε α)
  | .ok a, .ok b =>
    if h : a = b then .isTrue (by rw [h]) else .isFalse (by simp [h])
  | .error a, .error b =>
    if h : a = b then .isTrue (by rw [h]) else .isFalse (by simp [h])
  | .ok _, .error _ => .isFalse (by simp)
  | .error _, .ok _ => .isFalse (by simp)

/-- Upper-case hexadecimal digit of a value below 16 (`hex()` followed
by `.upper()` in the source). -/
def toHexCharUpper (n : Nat) : Char :=
  if n < 10 then Char.ofNat (48 + n) else Char.ofNat (55 + n)

/-- Upper-case hexadecimal text of a byte string, two digits per byte,
high nibble first: `bytes.hex().upper()`. -/
def bytesToHexUpper (bs : List Nat) : List Char :=
  bs.flatMap fun b => [toHexCharUpper (b / 16), toHexCharUpper (b % 16)]

/-- `VEDirectRequest.to_hex`: the upper-case hexadecimal of the
encoded frame with its very first hex digit dropped
(`self.to_bytes().hex()[1:].upper()`; slicing before or after the case
change is the same because slicing commutes with `upper`). -/
def VEDirectRequest.to_hex (r : VEDirectRequest) : List Char :=
  (bytesToHexUpper r.to_bytes).drop 1

/-- Value of one hexadecimal digit as accepted by `bytes.fromhex`
(either case), `none` on a non-hex character. -/
def hexCharVal (c : Char) : Option Nat :=
  if 48 ≤ c.toNat ∧ c.toNat ≤ 57 then some (c.toNat - 48)
  else if 65 ≤ c.toNat ∧ c.toNat ≤ 70 then some (c.toNat - 55)
  else if 97 ≤ c.toNat ∧ c.toNat ≤ 102 then some (c.toNat - 87)
  else none

/-- `bytes.fromhex`: pairs of hex digits to bytes, failing on stray
characters or an odd digit count. -/
def hexDecode : List Char → Option (List Nat)
  | [] => some []
  | [_] => none
  | c1 :: c2 :: rest =>
    match hexCharVal c1, hexCharVal c2, hexDecode rest with
    | some hi, some lo, some bs => some ((16 * hi + lo) :: bs)
    | _, _, _ => none

/-- A telemetry tag or value: a byte string. -/
abbrev Tag := List Nat

/-- ASCII whitespace bytes stripped by `bytes.strip()`. -/
def isWS (b : Nat) : Bool :=
  b = 32 || b = 9 || b = 10 || b = 13 || b = 11 || b = 12

/-- `bytes.strip()`: remove leading and trailing ASCII whitespace. -/
def stripBytes (l : List Nat) : List Nat :=
  ((l.dropWhile isWS).reverse.dropWhile isWS).reverse

/-- `.decode("ascii", "ignore")`: drop every byte above 127, keep the
rest as characters (modelled as the same byte values). -/
def asciiIgnore (l : List Nat) : List Nat :=
  l.filter (fun b => b < 128)

/-- `str.split("\t")`: split on every tab, keeping empty parts; the
result is never empty. -/
def splitTab : List Nat → List Tag
  | [] => [[]]
  | b :: rest =>
    if b = 9 then [] :: splitTab rest
    else
      match splitTab rest with
      | part :: parts => (b :: part) :: parts
      | [] => [[b]]

/-- Insertion into a Python dict, preserving insertion order: an
existing key is updated in place, a new key is appended. -/
def dictInsert (k v : Tag) : List (Tag × Tag) → List (Tag × Tag)
  | [] => [(k, v)]
  | (k₀, v₀) :: rest =>
    if k₀ = k then (k, v) :: rest else (k₀, v₀) :: dictInsert k v rest

/-- Python dict lookup by key (keys are unique, so the first match is
the entry). -/
def lookupTag (k : Tag) (d : List (Tag × Tag)) : Option Tag :=
  (d.find? fun p => p.1 == k).map Prod.snd

/-- The bytes of the key string "Checksum". -/
def checksumTag : Tag := [67, 104, 101, 99, 107, 115, 117, 109]

/-- The bytes of the key string "AC_OUT_I". -/
def acOutIKey : Tag := [65, 67, 95, 79, 85, 84, 95, 73]

/-- The bytes of the key string "V". -/
def voltageKey : Tag := [86]

/-- The bytes of the key string "MODE". -/
def modeKey : Tag := [77, 79, 68, 69]

/-- `PhoenixInverter._checksum`: a telemetry frame is intact when the
byte-sum of the whole raw frame is divisible by 256. -/
def PhoenixInverter.checksum (p0 : List Nat) : Bool :=
  p0.sum % 256 == 0

/-- Test whether a byte string ends with the two bytes CR LF
(`raw.endswith(b"\r\n")`). -/
def endsWithCRLF (l : List Nat) : Bool :=
  l.reverse.take 2 == [10, 13]

/-- The observable state of `PhoenixInverter.read_telemetry_frame`
during one call: `raw` and `telemetry` are the local accumulators of
the loop, `committed` is `self._telemetry` (the snapshot the accessors
read), `trace` records every frame committed so far together with the
raw bytes whose checksum validated it, and `done` records that the
loop has hit its `break` (after which the call returns). -/
structure AssemblerState where
  raw : List Nat
  telemetry : List (Tag × Tag)
  committed : List (Tag × Tag)
  trace : List (List (Tag × Tag) × List Nat)
  done : Bool
  deriving DecidableEq, Repr

/-- The state at the start of a call on a fresh `PhoenixInverter`
(`self._telemetry = {}`). -/
def initState : AssemblerState :=
  { raw := [], telemetry := [], committed := [], trace := [], done := false }

/-- One iteration of the `while True` loop of
`read_telemetry_frame`, fed the raw bytes returned by
`read_until(b"\r\n")`.  Empty or tab-free lines are skipped; a line
with more than one tab makes the tuple unpacking
`key, value = line.split("\t")` raise, which aborts the call
(`Except.error`); otherwise the pair enters the accumulating dict and
the raw bytes enter `raw`, and on the key "Checksum" the frame is
committed when it has exactly 12 entries and a zero byte-sum, else
both accumulators reset.  A `done` state is left unchanged: the loop
has already exited. -/
def stepLine (s : AssemblerState) (raw_line : List Nat) : Except Unit AssemblerState :=
  if s.done then .ok s
  else
    let line := asciiIgnore (stripBytes raw_line)
    if line.isEmpty || !line.contains 9 then .ok s
    else
      match splitTab line with
      | [key, value] =>
        let telemetry := dictInsert key value s.telemetry
        let raw := s.raw ++ raw_line
        if key = checksumTag then
          let raw := if endsWithCRLF raw then raw else raw ++ [13, 10]
          if telemetry.length = 12 && PhoenixInverter.checksum raw then
            .ok { raw := raw, telemetry := telemetry, committed := telemetry,
                  trace := s.trace ++ [(telemetry, raw)], done := true }
          else
            .ok { s with raw := [], telemetry := [] }
        else
          .ok { s with raw := raw, telemetry := telemetry }
      | _ => .error ()

/-- Run the loop over a list of raw lines.  On an exception the call
aborts with the state reached so far (the second component flags the
exception); `self._telemetry` is whatever `committed` holds there. -/
def runLines : AssemblerState → List (List Nat) → AssemblerState × Bool
  | s, [] => (s, false)
  | s, l :: ls =>
    match stepLine s l with
    | .ok s₁ => runLines s₁ ls
    | .error _ => (s, true)

/-- `PhoenixInverter.ac_current` reads `self._telemetry["AC_OUT_I"]`,
falling back on a default when the tag is absent.  The numeric step
(milliamps divided by 1000, rounded to two decimals) is a pure
function of the returned tag value, so the raw lookup carries the
whole dependence of the accessor on the state. -/
def PhoenixInverter.ac_current_raw (s : AssemblerState) : Option Tag :=
  lookupTag acOutIKey s.committed

/-- `PhoenixInverter.dc_voltage` reads `self._telemetry["V"]`. -/
def PhoenixInverter.dc_voltage_raw (s : AssemblerState) : Option Tag :=
  lookupTag voltageKey s.committed

/-- `PhoenixInverter.state` reads `self._telemetry["MODE"]`. -/
def PhoenixInverter.state_raw (s : AssemblerState) : Option Tag :=
  lookupTag modeKey s.committed

/-- The raw bytes of a well-formed telemetry line `KEY TAB VALUE CR LF`. -/
def renderLine (k v : Tag) : List Nat :=
  k ++ 9 :: v ++ [13, 10]

/-- The raw lines of a sequence of tag pairs. -/
def renderFrame (pairs : List (Tag × Tag)) : List (List Nat) :=
  pairs.map fun p => renderLine p.1 p.2

/-- Total byte count of the rendered lines of a frame. -/
def frameBytes (pairs : List (Tag × Tag)) : List Nat :=
  (renderFrame pairs).foldr (· ++ ·) []

/-- The checksum byte that makes a frame of the given pairs, followed
by the line `Checksum TAB b CR LF`, sum to zero modulo 256. -/
def frameChecksumByte (pairs : List (Tag × Tag)) : Nat :=
  (256 - ((frameBytes pairs).sum + checksumTag.sum + 9 + 13 + 10) % 256) % 256

/-- A printable non-whitespace ASCII byte: what a well-formed tag key
or value is made of (in particular not a tab, not CR or LF, below
128). -/
def niceByte (b : Nat) : Bool :=
  33 ≤ b && b ≤ 126

/-- A well-formed tag pair: nonempty printable key and value. -/
def nicePair (p : Tag × Tag) : Bool :=
  !p.1.isEmpty && !p.2.isEmpty && p.1.all niceByte && p.2.all niceByte

/-- The first `n` reads delivered by a transport modelled as a stream
of `read_until` results. -/
def readsUpTo (stream : Nat → List Nat) (n : Nat) : List (List Nat) :=
  (List.range n).map stream

/-- `read_telemetry_frame` returns on the given transport: some finite
number of reads drives the loop to its `break` (a committed frame) or
to an exception.  If no such number exists the `while True` loop runs
forever. -/
def readFrameReturns (stream : Nat → List Nat) : Prop :=
  ∃ n, (runLines initState (readsUpTo stream n)).1.done = true
    ∨ (runLines initState (readsUpTo stream n)).2 = true

/-- `class MultiPlusACType` from `src/devices/multiplus.py`. -/
inductive MultiPlusACType where
  | DISABLED
  | GRID
  | GENERATOR
  | SHORE
  deriving DecidableEq, Repr

/-- `class PhoenixState` from `src/devices/phoenix.py`. -/
inductive PhoenixState where
  | INVERTING
  | DEVICE_ON
  | DEVICE_OFF
  | ECO_MODE
  | HIBERNATE
  deriving DecidableEq, Repr

/-- `CURR_LIMIT_LOW = 7.8` from `src/current_limit_watcher.py`,
given by its reduced fraction 39/5 so that the kernel can evaluate
comparisons on it; `CURR_LIMIT_LOW_eq` identifies it with 7.8. -/
def CURR_LIMIT_LOW : ℚ := ⟨39, 5, by decide, by decide⟩

/-- `CURR_LIMIT_HIGH = 13.0` from `src/current_limit_watcher.py`. -/
def CURR_LIMIT_HIGH : ℚ := 13

/-- The values one tick of the watcher loop reads before deciding:
engine RPM and air-conditioner flag from the OBD adapter, state of
charge from the system service, AC output current and run-mode from
the Phoenix telemetry snapshot (`phoenix.state` is `None` when the
MODE tag is absent), and the cached MultiPlus configuration (current
limit and AC input type). -/
structure WatcherInputs where
  rpm : ℚ
  air_conditioner_on : Bool
  dc_soc : ℚ
  ac_current : ℚ
  phoenixState : Option PhoenixState
  ac1_current_limit : ℚ
  ac1_type : MultiPlusACType
  deriving DecidableEq, Repr

/-- The externally visible writes a tick can emit: the two MultiPlus
property writes (`SetValue` over the bus, issued by the
`ac1_current_limit` / `ac1_type` setters) and the Phoenix power
commands (`phoenix.on()` / `phoenix.off()`, SET of register 0x0200). -/
inductive WatcherCommand where
  | setCurrentLimit (q : ℚ)
  | setACType (t : MultiPlusACType)
  | phoenixOn
  | phoenixOff
  deriving DecidableEq, Repr

/-- The backup condition of the watcher:
`(van.rpm > 0 and not van.air_conditioner_on) or ve_system.dc_soc < 5`. -/
def needsBackup (i : WatcherInputs) : Prop :=
  (i.rpm > 0 ∧ i.air_conditioner_on = false) ∨ i.dc_soc < 5

instance (i : WatcherInputs) : Decidable (needsBackup i) := by
  unfold needsBackup; infer_instance

/-- One decision tick of `main` in `src/current_limit_watcher.py`: the
body of the `while True` loop after the telemetry read and the status
print, with each conditional device write emitted in program order.
The MultiPlus setters themselves (`src/devices/multiplus.py`) forward
every assignment to the bus unconditionally, so a command appears here
exactly when the source executes an assignment or a power call. -/
def tick (i : WatcherInputs) : List WatcherCommand :=
  if needsBackup i then
    (if i.ac_current > 0 then
      (if i.ac1_current_limit > CURR_LIMIT_LOW
        then [.setCurrentLimit CURR_LIMIT_LOW] else [])
      ++ (if i.ac1_type ≠ .GENERATOR then [.setACType .GENERATOR] else [])
    else
      (if i.ac1_current_limit = CURR_LIMIT_LOW
        then [.setCurrentLimit CURR_LIMIT_HIGH] else [])
      ++ (if i.ac1_type ≠ .SHORE then [.setACType .SHORE] else []))
    ++ (if i.phoenixState ≠ some .INVERTING then [.phoenixOn] else [])
  else
    if i.phoenixState = some .INVERTING then
      .phoenixOff ::
        (if i.ac1_current_limit = CURR_LIMIT_LOW
          then [.setCurrentLimit CURR_LIMIT_HIGH] else [])
      ++ [.setACType .SHORE]
    else []

/-- A command is a suppressed-when-equal write with respect to the
cached configuration the tick started from: a current-limit write
whose target differs from the cached limit, an AC-type write whose
target differs from the cached type, or a power command issued only
when the run-mode differs from the target mode.  The single exception
the code makes is the AC-type write to SHORE in the power-down branch,
which is issued without any comparison. -/
def guardedWrite (i : WatcherInputs) : WatcherCommand → Prop
  | .setCurrentLimit q => q ≠ i.ac1_current_limit
  | .setACType t => t ≠ i.ac1_type ∨ (t = .SHORE ∧ ¬needsBackup i)
  | .phoenixOn => i.phoenixState ≠ some .INVERTING
  | .phoenixOff => i.phoenixState = some .INVERTING

example : (VEDirectRequest.mk .PING 0 .OK none).to_bytes = [1, 0, 0, 0, 84] := by decide

example :
    VEDirectResponse.from_bytes [1, 0, 0, 0, 84] = .ok ⟨.PING, 0, .OK, none⟩ := by decide

example :
    VEDirectResponse.from_bytes (VEDirectRequest.mk .SET 800 .OK (some 0)).to_bytes
      = .ok ⟨.SET, 800, .OK, none⟩ := by decide

example :
    VEDirectResponse.from_bytes (VEDirectRequest.mk .SET 800 .OK (some 515)).to_bytes
      = .ok ⟨.SET, 800, .OK, some 515⟩ := by decide

example :
    VEDirectResponse.from_bytes (VEDirectRequest.mk .SET 800 .OK (some 65536)).to_bytes
      = .ok ⟨.SET, 800, .OK, none⟩ := by decide

/-- Concrete arbitration inputs matching the spec example: engine
running (800 RPM), air conditioner off, 50 percent charge, inverter
drawing 2 A, run-mode DEVICE_ON, current limit 13.0, AC type SHORE. -/
def exampleBackupInputs : WatcherInputs where
  rpm := 800
  air_conditioner_on := false
  dc_soc := 50
  ac_current := 2
  phoenixState := some .DEVICE_ON
  ac1_current_limit := 13
  ac1_type := .SHORE

/-- Concrete arbitration inputs for the power-down branch: engine off,
50 percent charge, run-mode INVERTING, current limit 13.0, AC type
already SHORE. -/
def exampleReleaseInputs : WatcherInputs where
  rpm := 0
  air_conditioner_on := false
  dc_soc := 50
  ac_current := 0
  phoenixState := some .INVERTING
  ac1_current_limit := 13
  ac1_type := .SHORE

/-- A concrete well-formed telemetry frame body: 11 tag pairs with
distinct printable single-byte keys (the letters A through K) and
value "1". -/
def examplePairs : List (Tag × Tag) :=
  [([65], [49]), ([66], [49]), ([67], [49]), ([68], [49]), ([69], [49]), ([70], [49]),
   ([71], [49]), ([72], [49]), ([73], [49]), ([74], [49]), ([75], [49])]

/-- The same frame body with a 12th tag (the letter L), for exercising
the assembler on 12 tag lines plus a checksum line. -/
def examplePairs12 : List (Tag × Tag) :=
  examplePairs ++ [([76], [49])]

theorem intToMinBytesFuel_irrel (i : Nat) :
    ∀ f₁ f₂, i ≤ f₁ → i ≤ f₂ → intToMinBytesFuel f₁ i = intToMinBytesFuel f₂ i := by
  induction i using Nat.strong_induction_on with
  | _ i ih =>
    intro f₁ f₂ h₁ h₂
    match i, f₁, f₂ with
    | 0, f₁, f₂ => cases f₁ <;> cases f₂ <;> rfl
    | i + 1, f₁ + 1, f₂ + 1 =>
      simp only [intToMinBytesFuel]
      have hd : (i + 1) / 256 < i + 1 := Nat.div_lt_self (Nat.succ_pos i) (by norm_num)
      exact congrArg _ (ih _ hd _ _ (by omega) (by omega))

/-- The defining equation of `intToMinBytes`: base-256 little-endian
digits, empty at zero. -/
theorem intToMinBytes_eq (i : Nat) :
    intToMinBytes i = if i = 0 then [] else i % 256 :: intToMinBytes (i / 256) := by
  match i with
  | 0 => rfl
  | i + 1 =>
    simp only [intToMinBytes, intToMinBytesFuel, Nat.succ_ne_zero, if_false]
    have hd : (i + 1) / 256 < i + 1 := Nat.div_lt_self (Nat.succ_pos i) (by norm_num)
    exact congrArg _ (intToMinBytesFuel_irrel _ _ _ (by omega) (by omega))

/-- Little-endian decoding inverts the minimal encoding at every
magnitude. -/
theorem leNat_intToMinBytes (i : Nat) : leNat (intToMinBytes i) = i := by
  induction i using Nat.strong_induction_on with
  | _ i ih =>
    rw [intToMinBytes_eq]
    by_cases h : i = 0
    · simp [h, leNat]
    · rw [if_neg h]
      have hd : i / 256 < i := Nat.div_lt_self (Nat.pos_of_ne_zero h) (by norm_num)
      simp only [leNat, List.foldr_cons]
      rw [show (intToMinBytes (i / 256)).foldr (fun b acc => b + 256 * acc) 0
            = leNat (intToMinBytes (i / 256)) from rfl, ih _ hd, Nat.mod_add_div]

/-- Every byte of the minimal encoding is a byte. -/
theorem intToMinBytes_lt (i : Nat) : ∀ b ∈ intToMinBytes i, b < 256 := by
  induction i using Nat.strong_induction_on with
  | _ i ih =>
    rw [intToMinBytes_eq]
    by_cases h : i = 0
    · simp [h]
    · rw [if_neg h]
      intro b hb
      rcases List.mem_cons.mp hb with hb | hb
      · exact hb ▸ Nat.mod_lt _ (by norm_num)
      · exact ih _ (Nat.div_lt_self (Nat.pos_of_ne_zero h) (by norm_num)) b hb

/-- The appended checksum byte drives the byte-sum of the whole frame
to 85 modulo 256 (85 = 0x55, the VE.Direct HEX frame constant). -/
theorem sum_checksum_mod (rb : List Nat) :
    (rb ++ [VEDirectRequest.checksum rb]).sum % 256 = 85 := by
  simp only [List.sum_append, List.sum_cons, List.sum_nil, VEDirectRequest.checksum]
  set s : ℤ := (rb.sum : ℤ) with hs
  have h0 : (0 : ℤ) ≤ (85 - s) % 256 := Int.emod_nonneg _ (by norm_num)
  have h1 : (85 - s) % 256 < 256 := Int.emod_lt_of_pos _ (by norm_num)
  have h2 : (85 - s) % 256 = 85 - s - 256 * ((85 - s) / 256) := by
    rw [Int.emod_def]
  have h3 : (((85 - s) % 256).toNat : ℤ) = (85 - s) % 256 := Int.toNat_of_nonneg h0
  omega

/-- The checksum test of `from_bytes` accepts exactly the frames whose
byte-sum is 85 modulo 256. -/
theorem response_checksum_iff (p0 : List Nat) :
    VEDirectResponse.checksum p0 = true ↔ p0.sum % 256 = 85 := by
  simp only [VEDirectResponse.checksum, beq_iff_eq]
  set s : ℤ := (p0.sum : ℤ) with hs
  have h2 : (85 - s) % 256 = 85 - s - 256 * ((85 - s) / 256) := by
    rw [Int.emod_def]
  have h0 : (0 : ℤ) ≤ (85 - s) % 256 := Int.emod_nonneg _ (by norm_num)
  have h1 : (85 - s) % 256 < 256 := Int.emod_lt_of_pos _ (by norm_num)
  omega

theorem cmd_ofCode_code (c : VEDirectCommand) :
    VEDirectCommand.ofCode c.code = some c := by
  cases c <;> rfl

theorem flag_ofCode_code (f : VEDirectFlag) :
    VEDirectFlag.ofCode f.code = some f := by
  cases f <;> rfl

/-- Unfolding of `from_bytes` on a frame long enough for the fixed
header. -/
theorem from_bytes_cons (c r0 r1 f : Nat) (rest : List Nat) :
    VEDirectResponse.from_bytes (c :: r0 :: r1 :: f :: rest) =
      if VEDirectResponse.checksum (c :: r0 :: r1 :: f :: rest) then
        match VEDirectCommand.ofCode c, VEDirectFlag.ofCode f with
        | some cmd, some flag =>
          .ok ⟨cmd, r0 + 256 * r1, flag,
            if rest.dropLast.length = 1 ∨ rest.dropLast.length = 2
                ∨ rest.dropLast.length = 4 ∨ rest.dropLast.length = 8 then
              some (leNat rest.dropLast)
            else none⟩
        | none, _ => .error .badCommand
        | some _, none => .error .badFlag
      else .error .checksumFailed := rfl

/-- The encoded frame in explicit head-tail form. -/
theorem to_bytes_explicit (r : VEDirectRequest) :
    r.to_bytes = r.cmd.code :: r.register % 256 :: r.register / 256 :: r.flag.code ::
      ((match r.value with | some v => intToMinBytes v | none => [])
        ++ [VEDirectRequest.checksum
              (r.cmd.code :: r.register % 256 :: r.register / 256 :: r.flag.code ::
                (match r.value with | some v => intToMinBytes v | none => []))]) := by
  simp [VEDirectRequest.to_bytes]

/-- The encoded frame of a valueless request. -/
theorem to_bytes_none (r : VEDirectRequest) (hv : r.value = none) :
    r.to_bytes = r.cmd.code :: r.register % 256 :: r.register / 256 :: r.flag.code ::
      [VEDirectRequest.checksum
        [r.cmd.code, r.register % 256, r.register / 256, r.flag.code]] := by
  simp [VEDirectRequest.to_bytes, hv]

/-- The encoded frame of a request carrying a value. -/
theorem to_bytes_some (r : VEDirectRequest) (v : Nat) (hv : r.value = some v) :
    r.to_bytes = r.cmd.code :: r.register % 256 :: r.register / 256 :: r.flag.code ::
      (intToMinBytes v ++ [VEDirectRequest.checksum
        (r.cmd.code :: r.register % 256 :: r.register / 256 :: r.flag.code ::
          intToMinBytes v)]) := by
  simp [VEDirectRequest.to_bytes, hv]

/-- C1 (corrected): decoding the encoding reproduces command,
register, flag and value for every request whose value is absent or
has a minimal little-endian width of 1, 2, 4 or 8 bytes; the original
claim fails for a present value of width 0 (the value 0) or of width
3, 5, 6 or 7 bytes, which decodes as an unset value (see the
counterexample). -/
theorem c1_roundtrip_valid_widths (r : VEDirectRequest) (hreg : r.register < 65536)
    (hw : ∀ v ∈ r.value, (intToMinBytes v).length = 1 ∨ (intToMinBytes v).length = 2
        ∨ (intToMinBytes v).length = 4 ∨ (intToMinBytes v).length = 8) :
    VEDirectResponse.from_bytes r.to_bytes = .ok ⟨r.cmd, r.register, r.flag, r.value⟩ := by
  rcases hv : r.value with _ | v
  · rw [to_bytes_none r hv]
    rw [from_bytes_cons]
    rw [if_pos ((response_checksum_iff _).mpr (by
      simpa using sum_checksum_mod
        [r.cmd.code, r.register % 256, r.register / 256, r.flag.code]))]
    rw [cmd_ofCode_code, flag_ofCode_code]
    simp [List.dropLast, Nat.mod_add_div]
  · rw [to_bytes_some r v hv]
    rw [from_bytes_cons]
    have hck : VEDirectResponse.checksum
        (r.cmd.code :: r.register % 256 :: r.register / 256 :: r.flag.code ::
          (intToMinBytes v ++ [VEDirectRequest.checksum
            (r.cmd.code :: r.register % 256 :: r.register / 256 :: r.flag.code ::
              intToMinBytes v)])) = true := by
      rw [response_checksum_iff]
      have := sum_checksum_mod
        (r.cmd.code :: r.register % 256 :: r.register / 256 :: r.flag.code :: intToMinBytes v)
      simpa using this
    rw [if_pos hck, cmd_ofCode_code, flag_ofCode_code]
    simp only [List.dropLast_concat]
    rw [if_pos (hw v hv)]
    simp [leNat_intToMinBytes, Nat.mod_add_div]

/-- C1 counterexample: the request SET register 0x0320 value 0 (a
value in the claimed range whose minimal width is 0 bytes) does not
round-trip: the decoded value is unset, not 0.  Likewise 65536, whose
minimal width is 3 bytes. -/
theorem c1_counterexample :
    VEDirectResponse.from_bytes (VEDirectRequest.mk .SET 800 .OK (some 0)).to_bytes
        = .ok ⟨.SET, 800, .OK, none⟩
      ∧ (VEDirectRequest.mk .SET 800 .OK (some 0)).value = some 0
      ∧ VEDirectResponse.from_bytes (VEDirectRequest.mk .SET 800 .OK (some 65536)).to_bytes
        = .ok ⟨.SET, 800, .OK, none⟩
      ∧ (VEDirectRequest.mk .SET 800 .OK (some 65536)).value = some 65536 := by
  refine ⟨by decide, rfl, by decide, rfl⟩

/-- C1 witness: the round-trip theorem applied to the concrete request
SET register 0x0320 (= 800) value 515, whose minimal width is 2
bytes. -/
theorem c1_roundtrip_valid_widths_witness :
    VEDirectResponse.from_bytes (VEDirectRequest.mk .SET 800 .OK (some 515)).to_bytes
      = .ok ⟨.SET, 800, .OK, some 515⟩ :=
  c1_roundtrip_valid_widths (VEDirectRequest.mk .SET 800 .OK (some 515))
    (by decide) (by decide)

/-- C2 (corrected): the byte-sum of every full encoded request frame
is 85 (0x55) modulo 256, not 0, and decoding fails with a checksum
error exactly when the byte-sum of the whole received frame modulo
256 differs from 85. -/
theorem c2_checksum_85 (r : VEDirectRequest) (c r0 r1 f : Nat) (rest : List Nat) :
    r.to_bytes.sum % 256 = 85
      ∧ (VEDirectResponse.from_bytes (c :: r0 :: r1 :: f :: rest) = .error .checksumFailed
          ↔ (c :: r0 :: r1 :: f :: rest).sum % 256 ≠ 85) := by
  constructor
  · rw [to_bytes_explicit r]
    have := sum_checksum_mod
      (r.cmd.code :: r.register % 256 :: r.register / 256 :: r.flag.code ::
        (match r.value with | some v => intToMinBytes v | none => []))
    simpa using this
  · rw [from_bytes_cons]
    by_cases hck : VEDirectResponse.checksum (c :: r0 :: r1 :: f :: rest) = true
    · rw [if_pos hck]
      have hs := (response_checksum_iff _).mp hck
      constructor
      · intro h
        exfalso
        rcases h1 : VEDirectCommand.ofCode c with _ | cmd <;>
          rcases h2 : VEDirectFlag.ofCode f with _ | fl <;>
            rw [h1, h2] at h <;> simp at h
      · intro h
        exact absurd hs h
    · rw [if_neg hck]
      have hs : (c :: r0 :: r1 :: f :: rest).sum % 256 ≠ 85 := fun h =>
        hck ((response_checksum_iff _).mpr h)
      simpa using hs

/-- C2 witness: the checksum theorem applied to the PING request and
to its own 5-byte encoding [1, 0, 0, 0, 84], whose byte-sum is 85:
nonzero modulo 256, yet decoding succeeds. -/
theorem c2_checksum_85_witness :
    (VEDirectRequest.mk .PING 0 .OK none).to_bytes.sum % 256 = 85
      ∧ (VEDirectResponse.from_bytes (1 :: 0 :: 0 :: 0 :: [84]) = .error .checksumFailed
          ↔ (1 :: 0 :: 0 :: 0 :: [84]).sum % 256 ≠ 85) :=
  c2_checksum_85 (VEDirectRequest.mk .PING 0 .OK none) 1 0 0 0 [84]

/-- C2 counterexample: the full encoded PING frame has byte-sum 85
modulo 256, which is not 0, and it decodes successfully even though
its byte-sum modulo 256 is nonzero — so frames do not sum to 0, and a
nonzero byte-sum does not imply a checksum error. -/
theorem c2_counterexample :
    (VEDirectRequest.mk .PING 0 .OK none).to_bytes.sum % 256 = 85
      ∧ ((VEDirectRequest.mk .PING 0 .OK none).to_bytes.sum % 256 ≠ 0
          ∧ VEDirectResponse.from_bytes (VEDirectRequest.mk .PING 0 .OK none).to_bytes
              = .ok ⟨.PING, 0, .OK, none⟩) := by
  refine ⟨by decide, by decide, by decide⟩

theorem cmd_code_lt (c : VEDirectCommand) : c.code < 16 := by
  cases c <;> decide

theorem flag_code_lt (f : VEDirectFlag) : f.code < 256 := by
  cases f <;> decide

theorem checksum_byte_lt (p0 : List Nat) : VEDirectRequest.checksum p0 < 256 := by
  unfold VEDirectRequest.checksum
  have h1 : ((85 : ℤ) - (p0.sum : ℤ)) % 256 < 256 := Int.emod_lt_of_pos _ (by norm_num)
  omega

/-- Every byte of an encoded frame with an in-range register is below
256. -/
theorem to_bytes_lt (r : VEDirectRequest) (hreg : r.register < 65536) :
    ∀ b ∈ r.to_bytes, b < 256 := by
  intro b hb
  rw [to_bytes_explicit r] at hb
  rcases List.mem_cons.mp hb with h | hb
  · exact h ▸ lt_trans (cmd_code_lt r.cmd) (by norm_num)
  rcases List.mem_cons.mp hb with h | hb
  · exact h ▸ Nat.mod_lt _ (by norm_num)
  rcases List.mem_cons.mp hb with h | hb
  · subst h; omega
  rcases List.mem_cons.mp hb with h | hb
  · exact h ▸ flag_code_lt r.flag
  rcases List.mem_append.mp hb with h | h
  · rcases hv : r.value with _ | v
    · rw [hv] at h; simp at h
    · rw [hv] at h; exact intToMinBytes_lt v b h
  · rcases List.mem_singleton.mp h with rfl
    exact checksum_byte_lt _

theorem hexCharVal_toHexCharUpper (n : Nat) (h : n < 16) :
    hexCharVal (toHexCharUpper n) = some n := by
  interval_cases n <;> decide

/-- Hex decoding inverts upper-case hex encoding on byte strings. -/
theorem hexDecode_bytesToHexUpper (bs : List Nat) (h : ∀ b ∈ bs, b < 256) :
    hexDecode (bytesToHexUpper bs) = some bs := by
  induction bs with
  | nil => rfl
  | cons b rest ih =>
    have hb : b < 256 := h b (List.mem_cons_self b rest)
    have hhi : b / 16 < 16 := by omega
    have hlo : b % 16 < 16 := Nat.mod_lt _ (by norm_num)
    simp only [bytesToHexUpper, List.flatMap_cons, List.cons_append, List.nil_append]
    simp only [hexDecode, hexCharVal_toHexCharUpper _ hhi, hexCharVal_toHexCharUpper _ hlo]
    rw [show (List.flatMap rest fun b => [toHexCharUpper (b / 16), toHexCharUpper (b % 16)])
          = bytesToHexUpper rest from rfl]
    rw [ih fun x hx => h x (List.mem_cons_of_mem b hx)]
    have hdm : 16 * (b / 16) + b % 16 = b := by omega
    show some ((16 * (b / 16) + b % 16) :: rest) = some (b :: rest)
    rw [hdm]

/-- C9 (confirmed): re-inserting a zero nibble in front of the
transmitted hex text and decoding it recovers the encoded byte
sequence exactly, because the high nibble of every numeric command
byte is zero.  This is what `PhoenixInverter.execute` does on the
response side with `bytes.fromhex(f"0{resp.decode()}")`. -/
theorem c9_hex_roundtrip (r : VEDirectRequest) (hreg : r.register < 65536) :
    hexDecode (toHexCharUpper 0 :: r.to_hex) = some r.to_bytes := by
  have hlt := to_bytes_lt r hreg
  have hhead : r.to_bytes = r.cmd.code :: (r.to_bytes.drop 1) := by
    rw [to_bytes_explicit r]
    rfl
  unfold VEDirectRequest.to_hex
  rw [hhead] at hlt ⊢
  simp only [bytesToHexUpper, List.flatMap_cons, List.cons_append, List.nil_append,
    List.drop_succ_cons, List.drop_zero]
  have h16 : r.cmd.code < 16 := cmd_code_lt r.cmd
  have hdiv : r.cmd.code / 16 = 0 := by omega
  rw [show toHexCharUpper 0 :: toHexCharUpper (r.cmd.code % 16) ::
        List.flatMap (r.to_bytes.drop 1) (fun b => [toHexCharUpper (b / 16), toHexCharUpper (b % 16)])
      = bytesToHexUpper (r.cmd.code :: r.to_bytes.drop 1) from by
    simp only [bytesToHexUpper, List.flatMap_cons, List.cons_append, List.nil_append, hdiv,
      Nat.mod_eq_of_lt h16]]
  exact hexDecode_bytesToHexUpper _ hlt

/-- C9 witness: the hex round-trip theorem applied to the concrete
request GET register 0x0320. -/
theorem c9_hex_roundtrip_witness :
    hexDecode (toHexCharUpper 0 :: (VEDirectRequest.mk .GET 800 .OK none).to_hex)
      = some (VEDirectRequest.mk .GET 800 .OK none).to_bytes :=
  c9_hex_roundtrip (VEDirectRequest.mk .GET 800 .OK none) (by decide)

theorem nice_not_ws {b : Nat} (h : niceByte b = true) : isWS b = false := by
  simp only [niceByte, Bool.and_eq_true, decide_eq_true_eq] at h
  simp only [isWS, Bool.or_eq_false_iff, decide_eq_false_iff_not]
  omega

theorem nice_ne_tab {b : Nat} (h : niceByte b = true) : b ≠ 9 := by
  simp only [niceByte, Bool.and_eq_true, decide_eq_true_eq] at h
  omega

theorem nice_lt_128 {b : Nat} (h : niceByte b = true) : b < 128 := by
  simp only [niceByte, Bool.and_eq_true, decide_eq_true_eq] at h
  omega

theorem dropWhile_cons_not_ws {a : Nat} (t : List Nat) (h : isWS a = false) :
    (a :: t).dropWhile isWS = a :: t := by
  rw [List.dropWhile_cons, h]
  simp

/-- Stripping a rendered line removes exactly the CR LF terminator. -/
theorem strip_render (k v : Tag) (hk : k ≠ []) (hv : v ≠ [])
    (hkb : ∀ b ∈ k, niceByte b = true) (hvb : ∀ b ∈ v, niceByte b = true) :
    stripBytes (renderLine k v) = k ++ 9 :: v := by
  unfold stripBytes renderLine
  have h1 : (k ++ 9 :: v ++ [13, 10]).dropWhile isWS = k ++ 9 :: v ++ [13, 10] := by
    cases k with
    | nil => exact absurd rfl hk
    | cons a t =>
      simp only [List.cons_append]
      exact dropWhile_cons_not_ws _ (nice_not_ws (hkb a (List.mem_cons_self a t)))
  rw [h1]
  have h2 : (k ++ 9 :: v ++ [13, 10]).reverse
      = 10 :: 13 :: (v.reverse ++ 9 :: k.reverse) := by
    simp
  rw [h2]
  have h3 : (10 :: 13 :: (v.reverse ++ 9 :: k.reverse)).dropWhile isWS
      = v.reverse ++ 9 :: k.reverse := by
    rw [show (10 : Nat) :: 13 :: (v.reverse ++ 9 :: k.reverse)
        = [10, 13] ++ (v.reverse ++ 9 :: k.reverse) from rfl]
    rw [List.dropWhile_append]
    have hws : List.dropWhile isWS [10, 13] = ([] : List Nat) := rfl
    rw [hws]
    simp only [List.isEmpty_nil, if_true, List.nil_append]
    cases hrev : v.reverse with
    | nil => exact absurd (List.reverse_eq_nil_iff.mp hrev) hv
    | cons vh vt =>
      rw [List.cons_append]
      have hvh : vh ∈ v := List.mem_reverse.mp (hrev ▸ List.mem_cons_self vh vt)
      exact dropWhile_cons_not_ws _ (nice_not_ws (hvb vh hvh))
  rw [h3]
  simp

theorem asciiIgnore_of_lt {l : List Nat} (h : ∀ b ∈ l, b < 128) :
    asciiIgnore l = l := by
  unfold asciiIgnore
  rw [List.filter_eq_self]
  intro b hb
  exact decide_eq_true (h b hb)

theorem splitTab_no_tab {l : List Nat} (h : ∀ b ∈ l, b ≠ 9) : splitTab l = [l] := by
  induction l with
  | nil => rfl
  | cons a t ih =>
    unfold splitTab
    rw [if_neg (h a (List.mem_cons_self a t))]
    rw [ih fun b hb => h b (List.mem_cons_of_mem a hb)]

theorem splitTab_pair (k v : Tag) (hk : ∀ b ∈ k, b ≠ 9) (hv : ∀ b ∈ v, b ≠ 9) :
    splitTab (k ++ 9 :: v) = [k, v] := by
  induction k with
  | nil =>
    show splitTab (9 :: v) = [[], v]
    unfold splitTab
    rw [if_pos rfl, splitTab_no_tab hv]
  | cons a t ih =>
    rw [List.cons_append]
    unfold splitTab
    rw [if_neg (hk a (List.mem_cons_self a t))]
    rw [ih fun b hb => hk b (List.mem_cons_of_mem a hb)]

theorem dictInsert_fresh (k v : Tag) (d : List (Tag × Tag))
    (h : ∀ p ∈ d, p.1 ≠ k) : dictInsert k v d = d ++ [(k, v)] := by
  induction d with
  | nil => rfl
  | cons p rest ih =>
    unfold dictInsert
    rw [if_neg (h p (List.mem_cons_self p rest))]
    rw [ih fun q hq => h q (List.mem_cons_of_mem p hq)]
    rfl

theorem endsWithCRLF_append (l : List Nat) : endsWithCRLF (l ++ [13, 10]) = true := by
  unfold endsWithCRLF
  rw [show (13 : Nat) :: [10] = [13] ++ [10] from rfl]
  simp

/-- Line preprocessing (strip, ascii-ignore) leaves a well-formed
rendered line as key TAB value. -/
theorem line_of_render (k v : Tag) (hk : k ≠ []) (hv : v ≠ [])
    (hkb : ∀ b ∈ k, niceByte b = true) (hvb : ∀ b ∈ v, niceByte b = true) :
    asciiIgnore (stripBytes (renderLine k v)) = k ++ 9 :: v := by
  rw [strip_render k v hk hv hkb hvb]
  apply asciiIgnore_of_lt
  intro b hb
  rcases List.mem_append.mp hb with h | h
  · exact nice_lt_128 (hkb b h)
  · rcases List.mem_cons.mp h with rfl | h
    · norm_num
    · exact nice_lt_128 (hvb b h)

theorem render_line_cond (k v : Tag) :
    ((k ++ 9 :: v).isEmpty || !(k ++ 9 :: v).contains 9) = false := by
  have h9 : (9 : Nat) ∈ k ++ 9 :: v := List.mem_append.mpr (Or.inr (List.mem_cons_self 9 v))
  cases k <;> simp_all

/-- One loop iteration on a well-formed tag line whose key is not
"Checksum": the pair enters the dict, the raw bytes accumulate,
nothing else changes. -/
theorem stepLine_tag (s : AssemblerState) (k v : Tag) (hdone : s.done = false)
    (hk : k ≠ []) (hv : v ≠ [])
    (hkb : ∀ b ∈ k, niceByte b = true) (hvb : ∀ b ∈ v, niceByte b = true)
    (hknc : k ≠ checksumTag) :
    stepLine s (renderLine k v)
      = .ok { s with
              raw := s.raw ++ renderLine k v
              telemetry := dictInsert k v s.telemetry } := by
  unfold stepLine
  rw [line_of_render k v hk hv hkb hvb]
  simp only [hdone, Bool.false_eq_true, if_false, render_line_cond k v,
    splitTab_pair k v (fun b hb => nice_ne_tab (hkb b hb)) (fun b hb => nice_ne_tab (hvb b hb))]
  rw [if_neg hknc]

/-- One loop iteration on a checksum line: the pair enters the dict,
and the frame either commits (12 entries, zero byte-sum) or both
accumulators reset. -/
theorem stepLine_checksum (s : AssemblerState) (b : Nat) (hdone : s.done = false)
    (hb : niceByte b = true) :
    stepLine s (renderLine checksumTag [b])
      = if (dictInsert checksumTag [b] s.telemetry).length = 12
            && PhoenixInverter.checksum (s.raw ++ renderLine checksumTag [b]) then
          .ok { raw := s.raw ++ renderLine checksumTag [b],
                telemetry := dictInsert checksumTag [b] s.telemetry,
                committed := dictInsert checksumTag [b] s.telemetry,
                trace := s.trace ++ [(dictInsert checksumTag [b] s.telemetry,
                  s.raw ++ renderLine checksumTag [b])],
                done := true }
        else
          .ok { s with raw := [], telemetry := [] } := by
  have hkb : ∀ x ∈ checksumTag, niceByte x = true := by decide
  have hvb : ∀ x ∈ [b], niceByte x = true := by
    intro x hx
    rcases List.mem_singleton.mp hx with rfl
    exact hb
  have hcrlf : endsWithCRLF (s.raw ++ renderLine checksumTag [b]) = true := by
    rw [show renderLine checksumTag [b]
        = (checksumTag ++ 9 :: [b]) ++ [13, 10] from by simp [renderLine]]
    rw [← List.append_assoc]
    exact endsWithCRLF_append _
  unfold stepLine
  rw [line_of_render checksumTag [b] (by decide) (List.cons_ne_nil b []) hkb hvb]
  simp only [hdone, Bool.false_eq_true, if_false, render_line_cond checksumTag [b],
    splitTab_pair checksumTag [b] (fun x hx => nice_ne_tab (hkb x hx))
      (fun x hx => nice_ne_tab (hvb x hx)),
    hcrlf, if_true]

theorem stepLine_done {s : AssemblerState} (h : s.done = true) (l : List Nat) :
    stepLine s l = .ok s := by
  unfold stepLine
  rw [if_pos h]

theorem runLines_cons_ok {s s₁ : AssemblerState} {l : List Nat} {ls : List (List Nat)}
    (h : stepLine s l = .ok s₁) : runLines s (l :: ls) = runLines s₁ ls := by
  show (match stepLine s l with
    | .ok s₁ => runLines s₁ ls
    | .error _ => (s, true)) = runLines s₁ ls
  rw [h]

/-- Once the loop has broken, further input is not consumed. -/
theorem runLines_done {s : AssemblerState} (h : s.done = true) :
    ∀ ls, runLines s ls = (s, false) := by
  intro ls
  induction ls with
  | nil => rfl
  | cons l t ih => rw [runLines_cons_ok (stepLine_done h l), ih]

theorem nicePair_spec {k v : Tag} (h : nicePair (k, v) = true) :
    k ≠ [] ∧ v ≠ [] ∧ (∀ b ∈ k, niceByte b = true) ∧ (∀ b ∈ v, niceByte b = true) := by
  simp only [nicePair, Bool.and_eq_true, Bool.not_eq_true', List.all_eq_true] at h
  exact ⟨List.isEmpty_eq_false.mp h.1.1.1, List.isEmpty_eq_false.mp h.1.1.2, h.1.2, h.2⟩

theorem frameBytes_cons (p : Tag × Tag) (ps : List (Tag × Tag)) :
    frameBytes (p :: ps) = renderLine p.1 p.2 ++ frameBytes ps := rfl

/-- Running the loop over the rendered lines of fresh, well-formed,
distinct, non-checksum tag pairs appends their bytes to the raw
accumulator and the pairs themselves to the dict, committing
nothing. -/
theorem runLines_renderFrame (pairs : List (Tag × Tag)) :
    ∀ (s : AssemblerState) (rest : List (List Nat)),
      s.done = false →
      (∀ p ∈ pairs, nicePair p = true) →
      (∀ p ∈ pairs, p.1 ≠ checksumTag) →
      (pairs.map Prod.fst).Nodup →
      (∀ p ∈ pairs, p.1 ∉ s.telemetry.map Prod.fst) →
      runLines s (renderFrame pairs ++ rest)
        = runLines { s with
                     raw := s.raw ++ frameBytes pairs
                     telemetry := s.telemetry ++ pairs } rest := by
  induction pairs with
  | nil =>
    intro s rest _ _ _ _ _
    show runLines s ([] ++ rest) = _
    simp only [List.nil_append, frameBytes, renderFrame, List.foldr_nil, List.map_nil,
      List.append_nil]
  | cons p ps ih =>
    intro s rest hdone hnice hnc hnodup hfresh
    obtain ⟨k, v⟩ := p
    obtain ⟨hk, hv, hkb, hvb⟩ := nicePair_spec (hnice _ (List.mem_cons_self _ _))
    have hstep := stepLine_tag s k v hdone hk hv hkb hvb (hnc _ (List.mem_cons_self _ _))
    have hins : dictInsert k v s.telemetry = s.telemetry ++ [(k, v)] := by
      apply dictInsert_fresh
      intro q hq hqk
      exact hfresh _ (List.mem_cons_self _ _) (List.mem_map.mpr ⟨q, hq, hqk⟩)
    have hih := ih { s with
        raw := s.raw ++ renderLine k v
        telemetry := s.telemetry ++ [(k, v)] } rest hdone
      (fun q hq => hnice q (List.mem_cons_of_mem _ hq))
      (fun q hq => hnc q (List.mem_cons_of_mem _ hq))
      (List.nodup_cons.mp hnodup).2
      (by
        intro q hq
        simp only [List.map_append, List.map_cons, List.map_nil, List.mem_append,
          List.mem_singleton]
        rintro (hmem | hqk)
        · exact hfresh q (List.mem_cons_of_mem _ hq) hmem
        · exact (List.nodup_cons.mp hnodup).1 (hqk ▸ List.mem_map.mpr ⟨q, hq, rfl⟩))
    rw [show renderFrame ((k, v) :: ps) ++ rest
        = renderLine k v :: (renderFrame ps ++ rest) from rfl]
    rw [runLines_cons_ok hstep, hins, hih]
    rw [frameBytes_cons]
    simp only [List.append_assoc, List.singleton_append, List.cons_append, List.nil_append]

theorem renderLine_sum (k v : Tag) : (renderLine k v).sum = k.sum + v.sum + 32 := by
  simp only [renderLine, List.sum_append, List.sum_cons, List.sum_nil]
  omega

/-- The computed checksum byte validates the assembled raw frame. -/
theorem frame_checksum_correct (pairs : List (Tag × Tag)) :
    PhoenixInverter.checksum
      (frameBytes pairs ++ renderLine checksumTag [frameChecksumByte pairs]) = true := by
  simp only [PhoenixInverter.checksum, beq_iff_eq, List.sum_append, renderLine_sum,
    frameChecksumByte]
  have hct : checksumTag.sum = 819 := by decide
  simp only [List.sum_cons, List.sum_nil, hct]
  omega

/-- Replacing the checksum byte by any other byte value invalidates
the assembled raw frame. -/
theorem frame_checksum_corrupt (pairs : List (Tag × Tag)) (b' : Nat)
    (h1 : b' < 256) (h2 : b' ≠ frameChecksumByte pairs) :
    PhoenixInverter.checksum
      (frameBytes pairs ++ renderLine checksumTag [b']) = false := by
  simp only [PhoenixInverter.checksum, beq_eq_false_iff_ne, List.sum_append, renderLine_sum,
    ne_eq]
  have hct : checksumTag.sum = 819 := by decide
  simp only [List.sum_cons, List.sum_nil, hct]
  simp only [frameChecksumByte, hct] at h2
  omega

/-- C3 (corrected): feeding the assembler 11 well-formed tag lines
with distinct non-"Checksum" keys followed by the correct checksum
line commits exactly one frame, whose 12 entries are the 11 tags plus
the Checksum entry itself; replacing the checksum value byte of that
line by any other printable byte commits zero frames and returns the
assembler to its initial state (empty accumulators, nothing
committed).  The original claim said 12 tag lines plus a checksum
line (13 entries, which the 12-entry test rejects) and claimed the
reset for corruption of any byte of the checksum line (corrupting the
key instead leaves a non-empty accumulator); see the
counterexample. -/
theorem c3_frame_commit (pairs : List (Tag × Tag)) (b b' : Nat)
    (hlen : pairs.length = 11)
    (hnice : ∀ p ∈ pairs, nicePair p = true)
    (hnc : ∀ p ∈ pairs, p.1 ≠ checksumTag)
    (hnodup : (pairs.map Prod.fst).Nodup)
    (hb : b = frameChecksumByte pairs) (hbnice : niceByte b = true)
    (hb2 : niceByte b' = true) (hne : b' ≠ b) :
    (runLines initState (renderFrame pairs ++ [renderLine checksumTag [b]])).1.trace
        = [(pairs ++ [(checksumTag, [b])], frameBytes pairs ++ renderLine checksumTag [b])]
      ∧ (runLines initState (renderFrame pairs ++ [renderLine checksumTag [b]])).1.committed
        = pairs ++ [(checksumTag, [b])]
      ∧ (pairs ++ [(checksumTag, [b])]).length = 12
      ∧ (runLines initState (renderFrame pairs ++ [renderLine checksumTag [b']])) =
        (initState, false) := by
  have hrun : ∀ c : Nat, runLines initState (renderFrame pairs ++ [renderLine checksumTag [c]])
      = runLines { initState with
          raw := initState.raw ++ frameBytes pairs
          telemetry := initState.telemetry ++ pairs } [renderLine checksumTag [c]] := by
    intro c
    exact runLines_renderFrame pairs initState [renderLine checksumTag [c]] rfl hnice hnc
      hnodup (by intro q hq; simp [initState])
  have hins : dictInsert checksumTag [b] pairs = pairs ++ [(checksumTag, [b])] := by
    apply dictInsert_fresh
    intro q hq
    exact hnc q hq
  have hins2 : dictInsert checksumTag [b'] pairs = pairs ++ [(checksumTag, [b'])] := by
    apply dictInsert_fresh
    intro q hq
    exact hnc q hq
  have hlen12 : (pairs ++ [(checksumTag, [b])]).length = 12 := by
    simp [hlen]
  have hstep := stepLine_checksum
    { initState with
      raw := initState.raw ++ frameBytes pairs
      telemetry := initState.telemetry ++ pairs } b rfl hbnice
  simp only [initState, List.nil_append] at hstep
  simp only [hins] at hstep
  have hgood : PhoenixInverter.checksum (frameBytes pairs ++ renderLine checksumTag [b]) =
      true := by
    rw [hb]
    exact frame_checksum_correct pairs
  rw [hgood] at hstep
  simp only [hlen12, Bool.and_true, decide_True, eq_self_iff_true, Bool.true_and,
    if_true] at hstep
  have hstep2 := stepLine_checksum
    { initState with
      raw := initState.raw ++ frameBytes pairs
      telemetry := initState.telemetry ++ pairs } b' rfl hb2
  simp only [initState, List.nil_append] at hstep2
  simp only [hins2] at hstep2
  have hbad : PhoenixInverter.checksum (frameBytes pairs ++ renderLine checksumTag [b']) =
      false := by
    apply frame_checksum_corrupt pairs b' (lt_trans (nice_lt_128 hb2) (by norm_num))
    rw [← hb]
    exact hne
  rw [hbad] at hstep2
  simp only [Bool.and_false, Bool.false_eq_true, if_false] at hstep2
  have hmain : runLines initState (renderFrame pairs ++ [renderLine checksumTag [b]])
      = ({ raw := frameBytes pairs ++ renderLine checksumTag [b]
           telemetry := pairs ++ [(checksumTag, [b])]
           committed := pairs ++ [(checksumTag, [b])]
           trace := [(pairs ++ [(checksumTag, [b])],
             frameBytes pairs ++ renderLine checksumTag [b])]
           done := true }, false) := by
    rw [hrun b]
    simp only [initState, List.nil_append]
    rw [runLines_cons_ok hstep, runLines_done rfl]
  have hcorr : runLines initState (renderFrame pairs ++ [renderLine checksumTag [b']])
      = (initState, false) := by
    rw [hrun b']
    simp only [initState, List.nil_append]
    rw [runLines_cons_ok hstep2]
    rfl
  refine ⟨?_, ?_, hlen12, hcorr⟩
  · rw [hmain]
  · rw [hmain]

/-- C3 witness: the commit theorem applied to the concrete 11-tag
frame `examplePairs`, whose checksum byte is 48 (the character "0"),
with 49 as the corrupted value byte. -/
theorem c3_frame_commit_witness :
    (runLines initState (renderFrame examplePairs ++ [renderLine checksumTag [48]])).1.trace
        = [(examplePairs ++ [(checksumTag, [48])],
            frameBytes examplePairs ++ renderLine checksumTag [48])]
      ∧ (runLines initState
          (renderFrame examplePairs ++ [renderLine checksumTag [48]])).1.committed
        = examplePairs ++ [(checksumTag, [48])]
      ∧ (examplePairs ++ [(checksumTag, [48])]).length = 12
      ∧ (runLines initState (renderFrame examplePairs ++ [renderLine checksumTag [49]])) =
        (initState, false) :=
  c3_frame_commit examplePairs 48 49 (by decide) (by decide) (by decide) (by decide)
    (by decide) (by decide) (by decide) (by decide)

/-- C3 counterexample: feeding 12 well-formed tag lines followed by a
correct checksum line (the whole raw frame sums to 0 modulo 256)
commits zero frames and never breaks the loop, because the accumulated
dict then holds 13 entries, not the required 12; and corrupting the
key byte of the checksum line of an 11-tag frame (C to D, so the line
stays well formed but the key is no longer "Checksum") commits
nothing and leaves a non-empty 12-entry accumulator, so corruption of
an arbitrary single byte does not return the assembler to the empty
state. -/
theorem c3_counterexample :
    PhoenixInverter.checksum (frameBytes examplePairs12 ++ renderLine checksumTag [147]) = true
      ∧ (runLines initState
          (renderFrame examplePairs12 ++ [renderLine checksumTag [147]])).1.trace = []
      ∧ (runLines initState
          (renderFrame examplePairs12 ++ [renderLine checksumTag [147]])).1.done = false
      ∧ (runLines initState
          (renderFrame examplePairs ++ [renderLine (68 :: checksumTag.drop 1) [48]])).1.telemetry.length
        = 12
      ∧ (runLines initState
          (renderFrame examplePairs ++ [renderLine (68 :: checksumTag.drop 1) [48]])).1.trace
        = [] := by
  decide

theorem dictInsert_mem (k v : Tag) (d : List (Tag × Tag)) : (k, v) ∈ dictInsert k v d := by
  induction d with
  | nil => exact List.mem_singleton.mpr rfl
  | cons p rest ih =>
    unfold dictInsert
    by_cases hp : p.1 = k
    · rw [show (p.1, p.2) = p from rfl] at *
      rw [if_pos hp]
      exact List.mem_cons_self _ _
    · rw [show (p.1, p.2) = p from rfl] at *
      rw [if_neg hp]
      exact List.mem_cons_of_mem _ ih

theorem mem_keys_dictInsert (x k v : Tag) (d : List (Tag × Tag)) :
    x ∈ (dictInsert k v d).map Prod.fst ↔ x = k ∨ x ∈ d.map Prod.fst := by
  induction d with
  | nil => simp [dictInsert]
  | cons p rest ih =>
    unfold dictInsert
    by_cases hp : p.1 = k
    · rw [show (p.1, p.2) = p from rfl]
      rw [if_pos hp]
      simp only [List.map_cons, List.mem_cons]
      constructor
      · rintro (rfl | hx)
        · exact Or.inl rfl
        · exact Or.inr (Or.inr hx)
      · rintro (rfl | (rfl | hx))
        · exact Or.inl rfl
        · exact Or.inl hp
        · exact Or.inr hx
    · rw [show (p.1, p.2) = p from rfl]
      rw [if_neg hp]
      simp only [List.map_cons, List.mem_cons, ih]
      tauto

theorem dictInsert_nodupKeys (k v : Tag) (d : List (Tag × Tag))
    (h : (d.map Prod.fst).Nodup) : ((dictInsert k v d).map Prod.fst).Nodup := by
  induction d with
  | nil => simp [dictInsert]
  | cons p rest ih =>
    rw [List.map_cons, List.nodup_cons] at h
    unfold dictInsert
    by_cases hp : p.1 = k
    · rw [show (p.1, p.2) = p from rfl]
      rw [if_pos hp]
      rw [List.map_cons, List.nodup_cons]
      exact ⟨hp ▸ h.1, h.2⟩
    · rw [show (p.1, p.2) = p from rfl]
      rw [if_neg hp]
      rw [List.map_cons, List.nodup_cons]
      refine ⟨fun hmem => ?_, ih h.2⟩
      rcases (mem_keys_dictInsert _ _ _ _).mp hmem with rfl | hmem
      · exact hp rfl
      · exact h.1 hmem

/-- Outcomes of one loop iteration from a running state: either a
non-committing transition that leaves snapshot, trace and loop flag
alone (the dict unchanged, reset, or extended by one insertion), or a
commit, which happens only with a 12-entry dict obtained by inserting
the "Checksum" key and a raw accumulator whose byte-sum validates. -/
theorem stepLine_spec (s s₁ : AssemblerState) (l : List Nat) (hdone : s.done = false)
    (h : stepLine s l = .ok s₁) :
    (s₁.committed = s.committed ∧ s₁.trace = s.trace ∧ s₁.done = false
      ∧ (s₁.telemetry = s.telemetry ∨ s₁.telemetry = []
          ∨ ∃ k v, s₁.telemetry = dictInsert k v s.telemetry))
    ∨ (s₁.done = true ∧ s₁.committed = s₁.telemetry
        ∧ s₁.trace = s.trace ++ [(s₁.telemetry, s₁.raw)]
        ∧ s₁.telemetry.length = 12 ∧ PhoenixInverter.checksum s₁.raw = true
        ∧ ∃ v, s₁.telemetry = dictInsert checksumTag v s.telemetry) := by
  unfold stepLine at h
  simp only [hdone, Bool.false_eq_true, if_false] at h
  split at h
  · cases h
    exact Or.inl ⟨rfl, rfl, hdone, Or.inl rfl⟩
  · split at h
    · rename_i key value heq
      split at h
      · rename_i hkey
        split at h
        · split at h
          · rename_i hcond
            cases h
            simp only [Bool.and_eq_true, decide_eq_true_eq] at hcond
            exact Or.inr ⟨rfl, rfl, rfl, hcond.1, hcond.2, value, hkey ▸ rfl⟩
          · cases h
            exact Or.inl ⟨rfl, rfl, rfl, Or.inr (Or.inl rfl)⟩
        · split at h
          · rename_i hcond
            cases h
            simp only [Bool.and_eq_true, decide_eq_true_eq] at hcond
            exact Or.inr ⟨rfl, rfl, rfl, hcond.1, hcond.2, value, hkey ▸ rfl⟩
          · cases h
            exact Or.inl ⟨rfl, rfl, rfl, Or.inr (Or.inl rfl)⟩
      · cases h
        exact Or.inl ⟨rfl, rfl, rfl, Or.inr (Or.inr ⟨key, value, rfl⟩)⟩
    · cases h

/-- Outcomes of a full run from a running state with a proper dict:
either nothing was committed and snapshot, trace and loop flag are
untouched, or the run ended in exactly one commit, a 12-entry
checksum-keyed dict validated against its raw bytes, which is both
the new snapshot and the one new trace entry. -/
theorem runLines_spec (lines : List (List Nat)) :
    ∀ s : AssemblerState, s.done = false → (s.telemetry.map Prod.fst).Nodup →
      (((runLines s lines).1.committed = s.committed
          ∧ (runLines s lines).1.trace = s.trace
          ∧ (runLines s lines).1.done = false
          ∧ ((runLines s lines).1.telemetry.map Prod.fst).Nodup)
        ∨ ((runLines s lines).1.done = true
            ∧ (runLines s lines).1.committed = (runLines s lines).1.telemetry
            ∧ (runLines s lines).1.trace
              = s.trace ++ [((runLines s lines).1.telemetry, (runLines s lines).1.raw)]
            ∧ (runLines s lines).1.telemetry.length = 12
            ∧ PhoenixInverter.checksum (runLines s lines).1.raw = true
            ∧ (∃ v, (checksumTag, v) ∈ (runLines s lines).1.telemetry)
            ∧ ((runLines s lines).1.telemetry.map Prod.fst).Nodup)) := by
  induction lines with
  | nil =>
    intro s hdone hnd
    exact Or.inl ⟨rfl, rfl, hdone, hnd⟩
  | cons l ls ih =>
    intro s hdone hnd
    rcases hst : stepLine s l with s₁ | s₁
    · rw [show runLines s (l :: ls) = (s, true) from by unfold runLines; rw [hst]]
      exact Or.inl ⟨rfl, rfl, hdone, hnd⟩
    · rw [runLines_cons_ok hst]
      rcases stepLine_spec s s₁ l hdone hst with
        ⟨hcom, htr, hdn, htele⟩ | ⟨hdn, hcom, htr, hlen, hck, v, htele⟩
      · have hnd₁ : (s₁.telemetry.map Prod.fst).Nodup := by
          rcases htele with he | he | ⟨k, w, he⟩
          · rw [he]; exact hnd
          · rw [he]; exact List.nodup_nil
          · rw [he]; exact dictInsert_nodupKeys k w _ hnd
        rcases ih s₁ hdn hnd₁ with ⟨h1, h2, h3, h4⟩ | ⟨h1, h2, h3, h4, h5, h6, h7⟩
        · exact Or.inl ⟨h1.trans hcom, h2.trans htr, h3, h4⟩
        · exact Or.inr ⟨h1, h2, h3.trans (by rw [htr]), h4, h5, h6, h7⟩
      · rw [runLines_done hdn]
        refine Or.inr ⟨hdn, hcom, htr, hlen, hck, ⟨v, htele ▸ dictInsert_mem _ _ _⟩, ?_⟩
        rw [htele]
        exact dictInsert_nodupKeys _ _ _ hnd

/-- C7 (confirmed): over any run of the loop from a running state,
the committed snapshot either stays exactly what it was (no commit:
same snapshot, same trace) or is replaced by a frame that passed both
the 12-entry count check and the whole-frame checksum check and is
recorded as the single new trace entry; and the derived accessors (AC
output current, DC voltage, run-mode) are lookups in the committed
snapshot alone, so no intermediate accumulator state is ever
observable through them. -/
theorem c7_committed_frames_valid (s : AssemblerState) (lines : List (List Nat))
    (hdone : s.done = false) (hnd : (s.telemetry.map Prod.fst).Nodup) :
    (((runLines s lines).1.committed = s.committed
        ∧ (runLines s lines).1.trace = s.trace)
      ∨ ((runLines s lines).1.committed.length = 12
          ∧ PhoenixInverter.checksum (runLines s lines).1.raw = true
          ∧ (runLines s lines).1.trace
            = s.trace ++ [((runLines s lines).1.committed, (runLines s lines).1.raw)]))
    ∧ PhoenixInverter.ac_current_raw (runLines s lines).1
        = lookupTag acOutIKey (runLines s lines).1.committed
    ∧ PhoenixInverter.dc_voltage_raw (runLines s lines).1
        = lookupTag voltageKey (runLines s lines).1.committed
    ∧ PhoenixInverter.state_raw (runLines s lines).1
        = lookupTag modeKey (runLines s lines).1.committed := by
  refine ⟨?_, rfl, rfl, rfl⟩
  rcases runLines_spec lines s hdone hnd with ⟨h1, h2, _, _⟩ | ⟨_, h2, h3, h4, h5, _, _⟩
  · exact Or.inl ⟨h1, h2⟩
  · refine Or.inr ⟨?_, h5, ?_⟩
    · rw [h2]; exact h4
    · rw [h3, h2]

/-- C7 witness: the theorem applied to the initial state and the
concrete run that commits the 11-tag example frame. -/
theorem c7_committed_frames_valid_witness :
    (((runLines initState (renderFrame examplePairs ++ [renderLine checksumTag [48]])).1.committed
          = initState.committed
        ∧ (runLines initState
            (renderFrame examplePairs ++ [renderLine checksumTag [48]])).1.trace
          = initState.trace)
      ∨ ((runLines initState
            (renderFrame examplePairs ++ [renderLine checksumTag [48]])).1.committed.length = 12
          ∧ PhoenixInverter.checksum
              (runLines initState
                (renderFrame examplePairs ++ [renderLine checksumTag [48]])).1.raw = true
          ∧ (runLines initState
              (renderFrame examplePairs ++ [renderLine checksumTag [48]])).1.trace
            = initState.trace
              ++ [((runLines initState
                    (renderFrame examplePairs ++ [renderLine checksumTag [48]])).1.committed,
                  (runLines initState
                    (renderFrame examplePairs ++ [renderLine checksumTag [48]])).1.raw)]))
    ∧ PhoenixInverter.ac_current_raw
        (runLines initState (renderFrame examplePairs ++ [renderLine checksumTag [48]])).1
      = lookupTag acOutIKey
          (runLines initState
            (renderFrame examplePairs ++ [renderLine checksumTag [48]])).1.committed
    ∧ PhoenixInverter.dc_voltage_raw
        (runLines initState (renderFrame examplePairs ++ [renderLine checksumTag [48]])).1
      = lookupTag voltageKey
          (runLines initState
            (renderFrame examplePairs ++ [renderLine checksumTag [48]])).1.committed
    ∧ PhoenixInverter.state_raw
        (runLines initState (renderFrame examplePairs ++ [renderLine checksumTag [48]])).1
      = lookupTag modeKey
          (runLines initState
            (renderFrame examplePairs ++ [renderLine checksumTag [48]])).1.committed :=
  c7_committed_frames_valid initState (renderFrame examplePairs ++ [renderLine checksumTag [48]])
    (by decide) (by decide)

theorem filter_ne_key_length (d : List (Tag × Tag)) (k v : Tag)
    (hnd : (d.map Prod.fst).Nodup) (hm : (k, v) ∈ d) :
    (d.filter fun p => !(p.1 == k)).length + 1 = d.length := by
  induction d with
  | nil => cases hm
  | cons p rest ih =>
    rw [List.map_cons, List.nodup_cons] at hnd
    rcases List.mem_cons.mp hm with rfl | hm
    · rw [List.filter_cons]
      simp only [beq_self_eq_true, Bool.not_true, Bool.false_eq_true, if_false]
      have hall : rest.filter (fun p => !(p.1 == k)) = rest := by
        rw [List.filter_eq_self]
        intro q hq
        simp only [Bool.not_eq_true', beq_eq_false_iff_ne, ne_eq]
        intro hqk
        exact hnd.1 (hqk ▸ List.mem_map.mpr ⟨q, hq, rfl⟩)
      rw [hall]
      rfl
    · have hpk : p.1 ≠ k := by
        intro hpk
        exact hnd.1 (hpk ▸ List.mem_map.mpr ⟨(k, v), hm, rfl⟩)
      rw [List.filter_cons]
      rw [if_pos (by simpa using hpk)]
      simp only [List.length_cons]
      rw [← ih hnd.2 hm]

/-- C10 (confirmed): every frame the assembler ever commits (from the
initial state) contains the "Checksum" key as one of its entries —
the checksum line is inserted into the dict before the commit test —
and has exactly 12 entries, of which exactly 11 are sensor tags other
than Checksum. -/
theorem c10_checksum_tag_in_frame (lines : List (List Nat)) :
    ∀ fr ∈ (runLines initState lines).1.trace,
      fr.1.length = 12
      ∧ (∃ v, (checksumTag, v) ∈ fr.1)
      ∧ (fr.1.filter fun p => !(p.1 == checksumTag)).length = 11 := by
  intro fr hfr
  rcases runLines_spec lines initState rfl (by decide) with
    ⟨_, h2, _, _⟩ | ⟨_, _, h3, h4, _, ⟨v, h6⟩, h7⟩
  · rw [h2] at hfr
    cases hfr
  · rw [h3] at hfr
    simp only [show initState.trace = [] from rfl, List.nil_append,
      List.mem_singleton] at hfr
    subst hfr
    dsimp only
    refine ⟨h4, ⟨v, h6⟩, ?_⟩
    have hfl := filter_ne_key_length _ checksumTag v h7 h6
    omega

/-- C10 witness: the theorem applied to the concrete run that commits
the 11-tag example frame together with its Checksum entry. -/
theorem c10_checksum_tag_in_frame_witness :
    (examplePairs ++ [(checksumTag, [48])]).length = 12
      ∧ (∃ v, (checksumTag, v) ∈ examplePairs ++ [(checksumTag, [48])])
      ∧ ((examplePairs ++ [(checksumTag, [48])]).filter
            (fun (p : Tag × Tag) => !(p.1 == checksumTag))).length = 11 :=
  c10_checksum_tag_in_frame (renderFrame examplePairs ++ [renderLine checksumTag [48]])
    (examplePairs ++ [(checksumTag, [48])],
      frameBytes examplePairs ++ renderLine checksumTag [48])
    (by decide)

theorem stepLine_empty (s : AssemblerState) (hdone : s.done = false) :
    stepLine s [] = .ok s := by
  unfold stepLine
  simp [hdone, stripBytes, asciiIgnore]

theorem runLines_all_empty (ls : List (List Nat)) (h : ∀ l ∈ ls, l = []) :
    runLines initState ls = (initState, false) := by
  induction ls with
  | nil => rfl
  | cons l t ih =>
    have hl := h l (List.mem_cons_self l t)
    subst hl
    rw [runLines_cons_ok (stepLine_empty initState rfl)]
    exact ih fun x hx => h x (List.mem_cons_of_mem _ hx)

/-- C8 (corrected): a transport whose reads keep timing out delivers
empty byte strings; each such read leaves the assembler state exactly
as it was (the blank line is skipped), so after any number of reads
the loop is still at its initial state, has committed nothing, raised
nothing, and has not exited — `read_telemetry_frame` neither
terminates nor surfaces a transport error on such a transport (only
`connect` and the serial writes can raise). -/
theorem c8_empty_reads_no_progress (stream : Nat → List Nat) (hstream : ∀ k, stream k = []) :
    (∀ s : AssemblerState, s.done = false → stepLine s [] = .ok s)
      ∧ (∀ n, runLines initState (readsUpTo stream n) = (initState, false))
      ∧ ¬ readFrameReturns stream := by
  have hall : ∀ n, ∀ l ∈ readsUpTo stream n, l = [] := by
    intro n l hl
    rcases List.mem_map.mp hl with ⟨k, _, rfl⟩
    exact hstream k
  refine ⟨stepLine_empty, fun n => runLines_all_empty _ (hall n), ?_⟩
  rintro ⟨n, hn | hn⟩ <;> rw [runLines_all_empty _ (hall n)] at hn <;> exact absurd hn (by decide)

/-- C8 witness: the theorem applied to the always-timing-out transport
and three reads. -/
theorem c8_empty_reads_no_progress_witness :
    runLines initState (readsUpTo (fun _ => []) 3) = (initState, false)
      ∧ ¬ readFrameReturns (fun _ => []) :=
  ⟨(c8_empty_reads_no_progress (fun _ => []) (fun _ => rfl)).2.1 3,
    (c8_empty_reads_no_progress (fun _ => []) (fun _ => rfl)).2.2⟩

/-- C8 counterexample: on the transport that always times out
(returns no bytes), `read_telemetry_frame` never returns: no number
of reads brings the loop to its break or to an exception, refuting
the claim that reading a telemetry frame over a timing-out transport
terminates with a transport error. -/
theorem c8_counterexample : ¬ readFrameReturns (fun _ => []) := by
  rintro ⟨n, hn | hn⟩
  all_goals
    rw [runLines_all_empty (readsUpTo (fun _ => []) n) (by
      intro l hl
      rcases List.mem_map.mp hl with ⟨k, _, rfl⟩
      rfl)] at hn
  · exact absurd hn (by decide)
  · exact absurd hn (by decide)

/-- C5 (confirmed): when backup power is needed and the inverter is
already carrying load, one tick lowers the current limit to the LOW
threshold exactly when the cached limit is above it, switches the AC
input type to GENERATOR exactly when it differs, and issues power-on
exactly when the run-mode is not INVERTING; the thresholds are the
spec values 7.8 and 13.0. -/
theorem c5_backup_engaged (i : WatcherInputs) (hnb : needsBackup i)
    (hac : i.ac_current > 0) :
    CURR_LIMIT_LOW = 7.8 ∧ CURR_LIMIT_HIGH = 13.0
      ∧ tick i
        = ((if i.ac1_current_limit > CURR_LIMIT_LOW
              then [.setCurrentLimit CURR_LIMIT_LOW] else [])
            ++ (if i.ac1_type ≠ .GENERATOR then [.setACType .GENERATOR] else []))
          ++ (if i.phoenixState ≠ some .INVERTING then [.phoenixOn] else []) := by
  refine ⟨?_, ?_, ?_⟩
  · rw [CURR_LIMIT_LOW, Rat.mk'_eq_divInt, Rat.divInt_eq_div]
    norm_num
  · rw [CURR_LIMIT_HIGH]
    norm_num
  · unfold tick
    rw [if_pos hnb, if_pos hac]

/-- C5 witness: the theorem applied to the spec example — engine
running, air conditioner off, 50 percent charge, drawing 2 A, limit
13.0, type SHORE, run-mode DEVICE_ON — which makes the tick lower the
limit, switch to GENERATOR and power on. -/
theorem c5_backup_engaged_witness :
    tick exampleBackupInputs
        = [.setCurrentLimit CURR_LIMIT_LOW, .setACType .GENERATOR, .phoenixOn]
      ∧ CURR_LIMIT_LOW = 7.8 := by
  have h := c5_backup_engaged exampleBackupInputs (by decide) (by decide)
  refine ⟨?_, h.1⟩
  rw [h.2.2]
  decide

/-- C6 (confirmed): when backup power is not needed, a tick with
run-mode INVERTING issues power-off, raises the current limit to HIGH
exactly when it is pinned at LOW, and writes the AC input type SHORE
unconditionally; a tick with any other run-mode does nothing at
all. -/
theorem c6_backup_released (i : WatcherInputs) (hnb : ¬ needsBackup i) :
    (i.phoenixState = some .INVERTING →
        tick i = .phoenixOff ::
          (if i.ac1_current_limit = CURR_LIMIT_LOW
            then [.setCurrentLimit CURR_LIMIT_HIGH] else [])
          ++ [.setACType .SHORE])
      ∧ (i.phoenixState ≠ some .INVERTING → tick i = [])
      ∧ CURR_LIMIT_HIGH = 13.0 ∧ CURR_LIMIT_LOW = 7.8 := by
  refine ⟨?_, ?_, by rw [CURR_LIMIT_HIGH]; norm_num,
    by rw [CURR_LIMIT_LOW, Rat.mk'_eq_divInt, Rat.divInt_eq_div]; norm_num⟩
  · intro hinv
    unfold tick
    rw [if_neg hnb, if_pos hinv]
  · intro hinv
    unfold tick
    rw [if_neg hnb, if_neg hinv]

/-- C6 witness: the theorem applied to concrete inputs with the
engine off and the inverter INVERTING at limit 13.0 and type SHORE:
the tick issues power-off and the unconditional SHORE write only. -/
theorem c6_backup_released_witness :
    tick exampleReleaseInputs = [.phoenixOff, .setACType .SHORE] := by
  have h := (c6_backup_released exampleReleaseInputs (by decide)).1 (by decide)
  rw [h]
  decide

/-- C4 (corrected): every current-limit write a tick emits targets a
value different from the cached limit, a GENERATOR write is emitted
only when the cached type differs, power-on and power-off are issued
only against the opposite run-mode, and a SHORE write emitted while
backup is needed is likewise guarded — but the SHORE write of the
power-down branch is emitted unconditionally, without comparison
against the cached type (see the counterexample). -/
theorem c4_writes_guarded (i : WatcherInputs) (c : WatcherCommand) (hc : c ∈ tick i) :
    guardedWrite i c := by
  unfold tick at hc
  by_cases hnb : needsBackup i
  · rw [if_pos hnb] at hc
    rcases List.mem_append.mp hc with hc | hc
    · by_cases hac : i.ac_current > 0
      · rw [if_pos hac] at hc
        rcases List.mem_append.mp hc with hc | hc
        · by_cases hl : i.ac1_current_limit > CURR_LIMIT_LOW
          · rw [if_pos hl] at hc
            obtain rfl := List.mem_singleton.mp hc
            exact ne_of_lt hl
          · rw [if_neg hl] at hc
            cases hc
        · by_cases hg : i.ac1_type ≠ .GENERATOR
          · rw [if_pos hg] at hc
            obtain rfl := List.mem_singleton.mp hc
            exact Or.inl (Ne.symm hg)
          · rw [if_neg hg] at hc
            cases hc
      · rw [if_neg hac] at hc
        rcases List.mem_append.mp hc with hc | hc
        · by_cases hl : i.ac1_current_limit = CURR_LIMIT_LOW
          · rw [if_pos hl] at hc
            obtain rfl := List.mem_singleton.mp hc
            show CURR_LIMIT_HIGH ≠ i.ac1_current_limit
            rw [hl]
            decide
          · rw [if_neg hl] at hc
            cases hc
        · by_cases hs : i.ac1_type ≠ .SHORE
          · rw [if_pos hs] at hc
            obtain rfl := List.mem_singleton.mp hc
            exact Or.inl (Ne.symm hs)
          · rw [if_neg hs] at hc
            cases hc
    · by_cases ho : i.phoenixState ≠ some .INVERTING
      · rw [if_pos ho] at hc
        obtain rfl := List.mem_singleton.mp hc
        exact ho
      · rw [if_neg ho] at hc
        cases hc
  · rw [if_neg hnb] at hc
    by_cases hinv : i.phoenixState = some .INVERTING
    · rw [if_pos hinv] at hc
      rcases List.mem_cons.mp hc with rfl | hc
      · exact hinv
      · rcases List.mem_append.mp hc with hc | hc
        · by_cases hl : i.ac1_current_limit = CURR_LIMIT_LOW
          · rw [if_pos hl] at hc
            obtain rfl := List.mem_singleton.mp hc
            show CURR_LIMIT_HIGH ≠ i.ac1_current_limit
            rw [hl]
            decide
          · rw [if_neg hl] at hc
            cases hc
        · obtain rfl := List.mem_singleton.mp hc
          exact Or.inr ⟨rfl, hnb⟩
    · rw [if_neg hinv] at hc
      cases hc

/-- C4 witness: the amended theorem applied to the spec example tick,
whose GENERATOR write indeed targets a type differing from the cached
SHORE. -/
theorem c4_writes_guarded_witness :
    guardedWrite exampleBackupInputs (.setACType .GENERATOR) :=
  c4_writes_guarded exampleBackupInputs (.setACType .GENERATOR) (by decide)

/-- C4 counterexample: in the power-down tick with the AC input type
already SHORE, the tick still emits a SHORE write over the bus: a
setter invocation whose target equals the cached configuration emits
a transport write, refuting the claim that all equal-valued writes
are suppressed. -/
theorem c4_counterexample :
    WatcherCommand.setACType .SHORE ∈ tick exampleReleaseInputs
      ∧ exampleReleaseInputs.ac1_type = .SHORE := by
  decide

